import Mathlib

/-!
Shallow embedding of the in-memory mock stores of the Ratio1 edge SDK:
the key/value chainstore mock (pkg/cstore/mock/mock_cstore.go) and the
file-store mock (pkg/r1fs/mock/mock_r1fs.go).

Go maps are embedded as association lists over `String` keys; the injected
clock is an `Int`-valued timestamp (seconds) passed to each operation;
randomly generated etags/CIDs are passed in as explicit arguments; Go's
fallible functions return `Except`.  Mutating methods return the updated
state next to their result.
-/

namespace EdgeSDK

/-- Go `unicode.IsSpace`: the Unicode White_Space code points together with
the Latin-1 space characters. -/
def goIsSpace (c : Char) : Bool :=
  let n := c.toNat
  n == 0x09 || n == 0x0a || n == 0x0b || n == 0x0c || n == 0x0d || n == 0x20 ||
  n == 0x85 || n == 0xa0 || n == 0x1680 || (0x2000 ≤ n && n ≤ 0x200a) ||
  n == 0x2028 || n == 0x2029 || n == 0x202f || n == 0x205f || n == 0x3000

/-- Go `strings.TrimSpace`: drop leading and trailing white space. -/
def goTrimSpace (s : String) : String :=
  ⟨((s.data.dropWhile goIsSpace).reverse.dropWhile goIsSpace).reverse⟩

/-- Go `strings.HasPrefix s pre`. -/
def goHasPrefix (s pre : String) : Bool :=
  pre.data.isPrefixOf s.data

/-- Go `strings.TrimPrefix s pre`: remove `pre` from the front of `s` when
present, otherwise return `s` unchanged. -/
def goTrimPrefix (s pre : String) : String :=
  if pre.data.isPrefixOf s.data then ⟨s.data.drop pre.data.length⟩ else s

/-- Lexicographic order on char lists by code point; agrees with Go's
byte-wise `<` on the UTF-8 encodings. -/
def strLtB : List Char → List Char → Bool
  | [], [] => false
  | [], _ :: _ => true
  | _ :: _, [] => false
  | a :: as, b :: bs =>
    if a.toNat < b.toNat then true
    else if b.toNat < a.toNat then false
    else strLtB as bs

/-- Go `s < t` on strings. -/
def strLt (a b : String) : Bool := strLtB a.data b.data

/-- Go `s <= t` on strings. -/
def strLe (a b : String) : Bool := !(strLt b a)

/-- `strLt` as a proposition. -/
abbrev sLt (a b : String) : Prop := strLt a b = true

/-- `strLe` as a proposition. -/
abbrev sLe (a b : String) : Prop := strLe a b = true

instance {ε α : Type} [DecidableEq ε] [DecidableEq α] : DecidableEq (Except ε α)
  | .ok a, .ok b =>
    if h : a = b then .isTrue (by rw [h])
    else .isFalse (by intro hc; cases hc; exact h rfl)
  | .ok _, .error _ => .isFalse (by intro hc; cases hc)
  | .error _, .ok _ => .isFalse (by intro hc; cases hc)
  | .error e, .error e2 =>
    if h : e = e2 then .isTrue (by rw [h])
    else .isFalse (by intro hc; cases hc; exact h rfl)

/-- Lookup in an association list embedding a Go `map[string]V`. -/
def alGet {α : Type} (k : String) : List (String × α) → Option α
  | [] => none
  | (k2, v) :: t => if k2 = k then some v else alGet k t

/-- Insert/replace in an association list embedding a Go `map[string]V`. -/
def alPut {α : Type} (k : String) (v : α) : List (String × α) → List (String × α)
  | [] => [(k, v)]
  | (k2, v2) :: t => if k2 = k then (k, v) :: t else (k2, v2) :: alPut k v t

/-- Deletion from an association list embedding a Go `map[string]V`. -/
def alErase {α : Type} (k : String) : List (String × α) → List (String × α)
  | [] => []
  | (k2, v2) :: t => if k2 = k then t else (k2, v2) :: alErase k t

/-- A stored chainstore entry: serialized payload bytes, etag, optional
expiry instant (`none` embeds Go's zero `time.Time`, meaning no TTL). -/
structure Entry where
  data : String
  etag : String
  expiresAt : Option Int
deriving Repr, DecidableEq

/-- `entry.expired(now)`: an entry with an expiry instant is expired once
`now` is strictly after it (`now.After(expiresAt)`). -/
def Entry.expired (e : Entry) (now : Int) : Bool :=
  match e.expiresAt with
  | none => false
  | some t => decide (t < now)

/-- The mock chainstore state: plain items and hash buckets. -/
structure CStoreState where
  items : List (String × Entry)
  hashes : List (String × List (String × Entry))
deriving Repr, DecidableEq

def emptyCStore : CStoreState := ⟨[], []⟩

/-- Errors returned by the mock chainstore. -/
inductive CErr where
  | keyRequired
  | fieldRequired
  | notFound
  | preconditionFailed
deriving Repr, DecidableEq

/-- `cstore.Item` as surfaced by the mock (value kept as raw payload). -/
structure Item where
  key : String
  value : String
  etag : String
  expiresAt : Option Int
deriving Repr, DecidableEq

/-- `cstore.HashItem`. -/
structure HashItem where
  hashKey : String
  field : String
  value : String
  etag : String
  expiresAt : Option Int
deriving Repr, DecidableEq

/-- `cstore.PutOptions` (`TTLSeconds *int`, `IfAbsent bool`,
`IfETagMatch string`). -/
structure PutOptions where
  ttlSeconds : Option Int
  ifAbsent : Bool
  ifETagMatch : String
deriving Repr, DecidableEq

/-- The expiry instant requested by put options:
`now + ttlSeconds` when a positive TTL is supplied, otherwise none. -/
def ttlExpiry (now : Int) (opts : Option PutOptions) : Option Int :=
  match opts with
  | some o =>
    match o.ttlSeconds with
    | some t => if 0 < t then some (now + t) else none
    | none => none
  | none => none

/-- `getItem`: validate the key, then look it up, lazily deleting it when
expired. -/
def getItem (now : Int) (key : String) (s : CStoreState) :
    Except CErr (Option Item) × CStoreState :=
  if goTrimSpace key = "" then (Except.error CErr.keyRequired, s)
  else
    match alGet key s.items with
    | none => (Except.ok none, s)
    | some ent =>
      if ent.expired now then
        (Except.ok none, { s with items := alErase key s.items })
      else
        (Except.ok (some ⟨key, ent.data, ent.etag, ent.expiresAt⟩), s)

/-- `putItem`: validate, lazily drop an expired current entry, check the
conditional-write options, then install a brand new entry. -/
def putItem (now : Int) (key payload : String) (opts : Option PutOptions)
    (tag : String) (s : CStoreState) : Except CErr Item × CStoreState :=
  if goTrimSpace key = "" then (Except.error CErr.keyRequired, s)
  else
    let e0 := alGet key s.items
    let live : Option Entry :=
      match e0 with
      | some ent => if ent.expired now then none else some ent
      | none => none
    let items1 :=
      match e0 with
      | some ent => if ent.expired now then alErase key s.items else s.items
      | none => s.items
    let s1 : CStoreState := { s with items := items1 }
    let precondFail : Bool :=
      match opts with
      | none => false
      | some o =>
        (o.ifAbsent && live.isSome) ||
        (!(o.ifETagMatch == "") &&
          !(match live with
            | some ent => ent.etag == o.ifETagMatch
            | none => false))
    if precondFail then (Except.error CErr.preconditionFailed, s1)
    else
      let expires := ttlExpiry now opts
      (Except.ok ⟨key, payload, tag, expires⟩,
       { s1 with items := alPut key ⟨payload, tag, expires⟩ items1 })

/-- `Mock.Delete` on the chainstore: physical presence check only. -/
def deleteItem (key : String) (s : CStoreState) : Except CErr Unit × CStoreState :=
  if goTrimSpace key = "" then (Except.error CErr.keyRequired, s)
  else
    match alGet key s.items with
    | none => (Except.error CErr.notFound, s)
    | some _ => (Except.ok (), { s with items := alErase key s.items })

/-- The result of `listItems`. -/
structure ListOut where
  items : List Item
  nextCursor : String
deriving Repr, DecidableEq

/-- The filter test of `listItems`: `prefix == "" || strings.HasPrefix(key, prefix)`. -/
def matchesPfx (pfx key : String) : Bool :=
  (pfx == "") || goHasPrefix key pfx

/-- The cursor scan of `listItems`: `sort.SearchStrings` followed by the
linear walk past keys `<=` cursor.  On the (always sorted) `keys` slice it
lands on the first index whose key is strictly greater than the cursor. -/
def cursorStart (keys : List String) (cursor : String) : Nat :=
  if cursor = "" then 0 else keys.findIdx (fun k => strLt cursor k)

/-- The paging block of `listItems` and the r1fs `List`: given the sorted
filtered keys, compute the page slice and the next cursor. -/
def pageOf (keys : List String) (cursor : String) (limit : Int) :
    List String × String :=
  let start0 := cursorStart keys cursor
  let start := if keys.length < start0 then keys.length else start0
  let stop :=
    if 0 < limit ∧ start + limit.toNat < keys.length then start + limit.toNat
    else keys.length
  ((keys.drop start).take (stop - start),
   if stop < keys.length ∧ 0 < stop then keys.getD (stop - 1) "" else "")

/-- `listItems`: lazily expire stale keys, filter by prefix, sort, page. -/
def listItems (now : Int) (pfx cursor : String) (limit : Int) (s : CStoreState) :
    ListOut × CStoreState :=
  let live := s.items.filter (fun kv => !(kv.2.expired now))
  let keys := List.insertionSort sLe ((live.map Prod.fst).filter (matchesPfx pfx))
  let pr := pageOf keys cursor limit
  (⟨pr.1.map (fun k =>
      match alGet k live with
      | some ent => ⟨k, ent.data, ent.etag, ent.expiresAt⟩
      | none => ⟨k, "", "", none⟩),
    pr.2⟩,
   { s with items := live })

/-- Driving `listItems` from a cursor until `nextCursor` is empty,
collecting the returned keys (with an explicit fuel bound). -/
def paginate (now : Int) (pfx : String) (limit : Int) :
    Nat → String → CStoreState → List String
  | 0, _, _ => []
  | fuel + 1, cursor, s =>
    let r := listItems now pfx cursor limit s
    let page := r.1.items.map Item.key
    if r.1.nextCursor = "" then page
    else page ++ paginate now pfx limit fuel r.1.nextCursor r.2

/-- `getHashItem`: per-field TTL check; pruning removes an emptied bucket. -/
def getHashItem (now : Int) (hashKey field : String) (s : CStoreState) :
    Except CErr (Option HashItem) × CStoreState :=
  if goTrimSpace hashKey = "" then (Except.error CErr.keyRequired, s)
  else if goTrimSpace field = "" then (Except.error CErr.fieldRequired, s)
  else
    match alGet hashKey s.hashes with
    | none => (Except.ok none, s)
    | some bucket =>
      match alGet field bucket with
      | none => (Except.ok none, s)
      | some ent =>
        if ent.expired now then
          let bucket2 := alErase field bucket
          let hashes2 :=
            if bucket2.isEmpty then alErase hashKey s.hashes
            else alPut hashKey bucket2 s.hashes
          (Except.ok none, { s with hashes := hashes2 })
        else
          (Except.ok (some ⟨hashKey, field, ent.data, ent.etag, ent.expiresAt⟩), s)

/-- `putHashItem`: the missing bucket is created (and stored) before the
conditional-write checks run, mirroring the Go control flow. -/
def putHashItem (now : Int) (hashKey field payload : String)
    (opts : Option PutOptions) (tag : String) (s : CStoreState) :
    Except CErr HashItem × CStoreState :=
  if goTrimSpace hashKey = "" then (Except.error CErr.keyRequired, s)
  else if goTrimSpace field = "" then (Except.error CErr.fieldRequired, s)
  else
    let bucket0 := (alGet hashKey s.hashes).getD []
    let e0 := alGet field bucket0
    let live : Option Entry :=
      match e0 with
      | some ent => if ent.expired now then none else some ent
      | none => none
    let bucket1 :=
      match e0 with
      | some ent => if ent.expired now then alErase field bucket0 else bucket0
      | none => bucket0
    let s1 : CStoreState := { s with hashes := alPut hashKey bucket1 s.hashes }
    let precondFail : Bool :=
      match opts with
      | none => false
      | some o =>
        (o.ifAbsent && live.isSome) ||
        (!(o.ifETagMatch == "") &&
          !(match live with
            | some ent => ent.etag == o.ifETagMatch
            | none => false))
    if precondFail then (Except.error CErr.preconditionFailed, s1)
    else
      let expires := ttlExpiry now opts
      (Except.ok ⟨hashKey, field, payload, tag, expires⟩,
       { s with hashes := alPut hashKey (alPut field ⟨payload, tag, expires⟩ bucket1) s.hashes })

/-- `listHashItems`: prune expired fields, drop the bucket once empty, and
return the remaining fields sorted by name. -/
def listHashItems (now : Int) (hashKey : String) (s : CStoreState) :
    Except CErr (List HashItem) × CStoreState :=
  if goTrimSpace hashKey = "" then (Except.error CErr.keyRequired, s)
  else
    match alGet hashKey s.hashes with
    | none => (Except.ok [], s)
    | some bucket =>
      let bucket2 := bucket.filter (fun fv => !(fv.2.expired now))
      let hashes2 :=
        if bucket2.isEmpty then alErase hashKey s.hashes
        else alPut hashKey bucket2 s.hashes
      if (bucket2.map Prod.fst).isEmpty then (Except.ok [], { s with hashes := hashes2 })
      else
        (Except.ok ((List.insertionSort sLe (bucket2.map Prod.fst)).map (fun f =>
          match alGet f bucket2 with
          | some ent => ⟨hashKey, f, ent.data, ent.etag, ent.expiresAt⟩
          | none => ⟨hashKey, f, "", "", none⟩)),
         { s with hashes := hashes2 })

/-- A stored r1fs file: payload bytes, content type, etag, metadata,
modification instant (`0` embeds Go's zero `time.Time`). -/
structure FileEntry where
  data : String
  contentType : String
  etag : String
  metadata : List (String × String)
  modTime : Int
deriving Repr, DecidableEq

/-- The mock r1fs state: files by normalized path, the CID → display-name
side table, and the YAML document table. -/
structure R1FSState where
  files : List (String × FileEntry)
  fileNames : List (String × String)
  yamlDocs : List (String × String)
deriving Repr, DecidableEq

def emptyR1FS : R1FSState := ⟨[], [], []⟩

/-- Errors returned by the mock r1fs. -/
inductive RErr where
  | pathRequired
  | filenameRequired
  | cidRequired
  | dataRequired
  | notFound
deriving Repr, DecidableEq

/-- `r1fs.FileStat`. -/
structure FileStat where
  path : String
  size : Int
  contentType : String
  etag : String
  lastModified : Option Int
  metadata : List (String × String)
deriving Repr, DecidableEq

/-- `r1fs.FileLocation`. -/
structure FileLocation where
  path : String
  filename : String
  meta : List (String × String)
deriving Repr, DecidableEq

/-- `r1fs.UploadOptions`. -/
structure UploadOptions where
  contentType : String
  secret : String
  metadata : List (String × String)
deriving Repr, DecidableEq

/-- `normalizePath`: ensure a leading '/'. -/
def normalizePath (path : String) : String :=
  if path = "" then "/"
  else if goHasPrefix path "/" then path
  else "/" ++ path

/-- `optsMetadata`: caller metadata plus the secret under `r1fs.secret`. -/
def optsMetadata (opts : Option UploadOptions) : List (String × String) :=
  match opts with
  | none => []
  | some o => if o.secret = "" then o.metadata else alPut "r1fs.secret" o.secret o.metadata

/-- `chooseSize`: the provided size when non-negative, else the actual one. -/
def chooseSize (provided actual : Int) : Int :=
  if 0 ≤ provided then provided else actual

/-- `buildStat`. -/
def buildStat (path : String) (e : FileEntry) (size : Int) : FileStat :=
  ⟨path, size, e.contentType, e.etag,
   if e.modTime = 0 then none else some e.modTime, e.metadata⟩

/-- `Mock.Upload`: store payload bytes under the normalized path. -/
def upload (now : Int) (path payload : String) (size : Int)
    (opts : Option UploadOptions) (tag : String) (fs : R1FSState) :
    Except RErr FileStat × R1FSState :=
  if goTrimSpace path = "" then (Except.error RErr.pathRequired, fs)
  else
    let e : FileEntry :=
      { data := payload
        contentType := match opts with | some o => o.contentType | none => ""
        etag := tag
        metadata := optsMetadata opts
        modTime := now }
    let normalized := normalizePath path
    (Except.ok (buildStat normalized e (chooseSize size (Int.ofNat payload.length))),
     { fs with files := alPut normalized e fs.files })

/-- `Mock.AddFile`: store under a freshly generated CID, record the display
name, and report the CID as the stat path.  The entry etag and the CID are
two separate `newETag()` draws. -/
def addFile (now : Int) (filename payload : String) (size : Int)
    (opts : Option UploadOptions) (etagArg cidArg : String) (fs : R1FSState) :
    Except RErr FileStat × R1FSState :=
  if goTrimSpace filename = "" then (Except.error RErr.filenameRequired, fs)
  else
    let e : FileEntry :=
      { data := payload
        contentType := match opts with | some o => o.contentType | none => ""
        etag := etagArg
        metadata := alPut "r1fs.filename" filename (optsMetadata opts)
        modTime := now }
    let path := normalizePath cidArg
    (Except.ok { buildStat path e (chooseSize size (Int.ofNat payload.length)) with
                  path := cidArg },
     { fs with
        files := alPut path e fs.files
        fileNames := alPut cidArg filename fs.fileNames })

/-- `Mock.Download`: read the bytes stored under the normalized path. -/
def download (path : String) (fs : R1FSState) : Except RErr String :=
  if goTrimSpace path = "" then Except.error RErr.pathRequired
  else
    match alGet (normalizePath path) fs.files with
    | none => Except.error RErr.notFound
    | some e => Except.ok e.data

/-- `Mock.GetFile`: resolve metadata for a stored CID; the filename falls
back to the normalized path stripped of its leading '/'. -/
def getFile (cid secret : String) (fs : R1FSState) : Except RErr FileLocation :=
  if goTrimSpace cid = "" then Except.error RErr.cidRequired
  else
    let normalized := normalizePath cid
    match alGet normalized fs.files with
    | none => Except.error RErr.notFound
    | some e =>
      let recorded := (alGet cid fs.fileNames).getD ""
      let filename := if recorded = "" then goTrimPrefix normalized "/" else recorded
      Except.ok ⟨normalized, filename,
        e.metadata.foldl (fun acc kv => alPut kv.1 kv.2 acc)
          (alPut "filename" filename (alPut "file" normalized []))⟩

/-- `Mock.AddYAML`: `payload` stands for the `json.Marshal`-ed document
(`none` embeds a Go `nil` document). -/
def addYAML (now : Int) (payload : Option String) (filename secret : String)
    (etagArg cidArg : String) (fs : R1FSState) : Except RErr String × R1FSState :=
  match payload with
  | none => (Except.error RErr.dataRequired, fs)
  | some p =>
    let fn := if goTrimSpace filename = "" then "document.yaml" else filename
    match addFile now fn p (Int.ofNat p.length) (some ⟨"", secret, []⟩) etagArg cidArg fs with
    | (Except.ok stat, fs1) =>
      (Except.ok stat.path, { fs1 with yamlDocs := alPut stat.path p fs1.yamlDocs })
    | (Except.error e, fs1) => (Except.error e, fs1)

/-- `Mock.GetYAML`: unknown CIDs produce the literal JSON string
`"error"`; known CIDs wrap the stored bytes under `file_data`. -/
def getYAML (cid secret : String) (fs : R1FSState) : Except RErr String :=
  if goTrimSpace cid = "" then Except.error RErr.cidRequired
  else
    match alGet cid fs.yamlDocs with
    | none => Except.ok "\"error\""
    | some d => Except.ok ("\x7b\"file_data\":" ++ d ++ "\x7d")

/-- `Mock.Stat`. -/
def statFile (path : String) (fs : R1FSState) : Except RErr FileStat :=
  if goTrimSpace path = "" then Except.error RErr.pathRequired
  else
    match alGet (normalizePath path) fs.files with
    | none => Except.error RErr.notFound
    | some e => Except.ok (buildStat (normalizePath path) e (Int.ofNat e.data.length))

/-- `Mock.Delete` on r1fs. -/
def deleteFile (path : String) (fs : R1FSState) : Except RErr Unit × R1FSState :=
  if goTrimSpace path = "" then (Except.error RErr.pathRequired, fs)
  else
    match alGet (normalizePath path) fs.files with
    | none => (Except.error RErr.notFound, fs)
    | some _ => (Except.ok (), { fs with files := alErase (normalizePath path) fs.files })

/-- Spec-side view: the live (present and unexpired) entry at a key. -/
def liveAt (now : Int) (k : String) (s : CStoreState) : Option Entry :=
  match alGet k s.items with
  | some ent => if ent.expired now then none else some ent
  | none => none

/-- Spec-side invariant: no hash-key maps to an empty bucket. -/
def noEmptyBuckets (s : CStoreState) : Prop :=
  ∀ p ∈ s.hashes, p.2 ≠ ([] : List (String × Entry))

instance (s : CStoreState) : Decidable (noEmptyBuckets s) := by
  unfold noEmptyBuckets
  infer_instance

/-- Spec-side reading of "the trailing segment of the path": everything
after the last '/'. -/
def specTrailingSegment (p : String) : String :=
  ⟨(p.data.reverse.takeWhile (fun c => c ≠ '/')).reverse⟩

/-! ### Order theory for the byte-wise string order -/

theorem char_toNat_inj {a b : Char} (h : a.toNat = b.toNat) : a = b :=
  Char.ext (UInt32.ext h)

theorem strLtB_irrefl : ∀ l : List Char, strLtB l l = false
  | [] => rfl
  | a :: t => by simp [strLtB, strLtB_irrefl t]

theorem strLtB_trans :
    ∀ a b c : List Char, strLtB a b = true → strLtB b c = true → strLtB a c = true := by
  intro a
  induction a with
  | nil =>
    intro b c hab hbc
    cases b with
    | nil => simp [strLtB] at hab
    | cons b0 bs =>
      cases c with
      | nil => simp [strLtB] at hbc
      | cons c0 cs => simp [strLtB]
  | cons a0 as ih =>
    intro b c hab hbc
    cases b with
    | nil => simp [strLtB] at hab
    | cons b0 bs =>
      cases c with
      | nil => simp [strLtB] at hbc
      | cons c0 cs =>
        simp only [strLtB] at hab hbc ⊢
        by_cases h1 : a0.toNat < b0.toNat <;> by_cases h2 : b0.toNat < c0.toNat
        · simp [Nat.lt_trans h1 h2]
        · by_cases h3 : c0.toNat < b0.toNat
          · simp [h2, h3] at hbc
          · have hbc2 : b0.toNat = c0.toNat :=
              Nat.le_antisymm (Nat.not_lt.mp h3) (Nat.not_lt.mp h2)
            simp [hbc2 ▸ h1]
        · by_cases h1' : b0.toNat < a0.toNat
          · simp [h1, h1'] at hab
          · have hab2 : a0.toNat = b0.toNat :=
              Nat.le_antisymm (Nat.not_lt.mp h1') (Nat.not_lt.mp h1)
            simp [hab2 ▸ h2]
        · by_cases h1' : b0.toNat < a0.toNat
          · simp [h1, h1'] at hab
          · by_cases h3 : c0.toNat < b0.toNat
            · simp [h2, h3] at hbc
            · have hab2 : a0.toNat = b0.toNat :=
                Nat.le_antisymm (Nat.not_lt.mp h1') (Nat.not_lt.mp h1)
              have hbc2 : b0.toNat = c0.toNat :=
                Nat.le_antisymm (Nat.not_lt.mp h3) (Nat.not_lt.mp h2)
              simp [h1, h1', hab2, hbc2] at hab hbc ⊢
              exact ih bs cs hab hbc

theorem strLtB_conn :
    ∀ a b : List Char, strLtB a b = false → strLtB b a = false → a = b := by
  intro a
  induction a with
  | nil =>
    intro b hab _
    cases b with
    | nil => rfl
    | cons b0 bs => simp [strLtB] at hab
  | cons a0 as ih =>
    intro b hab hba
    cases b with
    | nil => simp [strLtB] at hba
    | cons b0 bs =>
      simp only [strLtB] at hab hba
      by_cases h1 : a0.toNat < b0.toNat
      · simp [h1] at hab
      · by_cases h2 : b0.toNat < a0.toNat
        · simp [h2] at hba
        · have he : a0 = b0 :=
            char_toNat_inj (Nat.le_antisymm (Nat.not_lt.mp h2) (Nat.not_lt.mp h1))
          simp [h1, h2] at hab hba
          rw [he, ih bs hab hba]

theorem strLtB_asymm {a b : List Char} (h : strLtB a b = true) : strLtB b a = false := by
  cases hba : strLtB b a with
  | false => rfl
  | true =>
    have := strLtB_trans a b a h hba
    rw [strLtB_irrefl] at this
    exact absurd this (by simp)

theorem sLt_irrefl (a : String) : ¬ sLt a a := by
  simp [sLt, strLt, strLtB_irrefl]

theorem sLt_trans {a b c : String} (h1 : sLt a b) (h2 : sLt b c) : sLt a c :=
  strLtB_trans a.data b.data c.data h1 h2

theorem sLt_asymm {a b : String} (h : sLt a b) : ¬ sLt b a := by
  simp [sLt, strLt, strLtB_asymm h]

theorem eq_of_not_sLt {a b : String} (h1 : ¬ sLt a b) (h2 : ¬ sLt b a) : a = b := by
  cases a with
  | mk da =>
    cases b with
    | mk db =>
      simp only [sLt, strLt, Bool.not_eq_true] at h1 h2
      exact congrArg String.mk (strLtB_conn da db h1 h2)

theorem sLe_iff {a b : String} : sLe a b ↔ ¬ sLt b a := by
  simp [sLe, strLe, sLt]

theorem sLe_of_sLt {a b : String} (h : sLt a b) : sLe a b :=
  sLe_iff.mpr (sLt_asymm h)

theorem sLt_of_sLe_of_ne {a b : String} (h : sLe a b) (hne : a ≠ b) : sLt a b := by
  by_cases hab : sLt a b
  · exact hab
  · exact absurd (eq_of_not_sLt hab (sLe_iff.mp h)) hne

instance : IsTotal String sLe :=
  ⟨fun a b => by
    by_cases h : sLt b a
    · exact Or.inr (sLe_of_sLt h)
    · exact Or.inl (sLe_iff.mpr h)⟩

instance : IsTrans String sLe :=
  ⟨fun a b c hab hbc => by
    rw [sLe_iff] at hab hbc ⊢
    intro hca
    by_cases h : sLt a b
    · exact hbc (sLt_trans hca h)
    · have : a = b := eq_of_not_sLt h hab
      exact hbc (this ▸ hca)⟩

theorem sLt_empty {k : String} (h : k ≠ "") : sLt "" k := by
  cases k with
  | mk d =>
    cases d with
    | nil => exact absurd rfl h
    | cons c t => simp [sLt, strLt, strLtB]

/-! ### Association-list lemmas -/

theorem alGet_alPut_self {α : Type} (k : String) (v : α) :
    ∀ l : List (String × α), alGet k (alPut k v l) = some v := by
  intro l
  induction l with
  | nil => simp [alPut, alGet]
  | cons p t ih =>
    obtain ⟨k2, v2⟩ := p
    by_cases h : k2 = k
    · simp [alPut, alGet, h]
    · simp [alPut, alGet, h, ih]

theorem mem_alPut {α : Type} {p : String × α} {k : String} {v : α} :
    ∀ {l : List (String × α)}, p ∈ alPut k v l → p = (k, v) ∨ p ∈ l := by
  intro l
  induction l with
  | nil => simp [alPut]
  | cons q t ih =>
    obtain ⟨k2, v2⟩ := q
    by_cases h : k2 = k
    · simp [alPut, h]
      intro hp
      rcases hp with hp | hp
      · exact Or.inl hp
      · exact Or.inr (Or.inr hp)
    · simp [alPut, h]
      intro hp
      rcases hp with hp | hp
      · exact Or.inr (Or.inl hp)
      · rcases ih hp with hp2 | hp2
        · exact Or.inl hp2
        · exact Or.inr (Or.inr hp2)

theorem alPut_ne_nil {α : Type} (k : String) (v : α) :
    ∀ l : List (String × α), alPut k v l ≠ [] := by
  intro l
  cases l with
  | nil => simp [alPut]
  | cons q t =>
    obtain ⟨k2, v2⟩ := q
    by_cases h : k2 = k <;> simp [alPut, h]

theorem mem_alErase {α : Type} {p : String × α} {k : String} :
    ∀ {l : List (String × α)}, p ∈ alErase k l → p ∈ l := by
  intro l
  induction l with
  | nil => simp [alErase]
  | cons q t ih =>
    obtain ⟨k2, v2⟩ := q
    by_cases h : k2 = k
    · simp [alErase, h]
      intro hp
      exact Or.inr hp
    · simp [alErase, h]
      intro hp
      rcases hp with hp | hp
      · exact Or.inl hp
      · exact Or.inr (ih hp)

/-! ### TrimSpace lemmas -/

theorem goTrimSpace_blank_all {s : String} (h : goTrimSpace s = "") :
    ∀ c ∈ s.data, goIsSpace c = true := by
  intro c hc
  have h1 : ((s.data.dropWhile goIsSpace).reverse.dropWhile goIsSpace).reverse = [] := by
    have := congrArg String.data h
    exact this
  rw [List.reverse_eq_nil_iff] at h1
  rw [List.dropWhile_eq_nil_iff] at h1
  rcases List.mem_append.mp
      ((List.takeWhile_append_dropWhile (p := goIsSpace) (l := s.data)) ▸ hc) with
    hc2 | hc2
  · exact List.mem_takeWhile_imp hc2
  · exact h1 c (List.mem_reverse.mpr hc2)

theorem goTrimSpace_ne_empty {s : String} {c : Char} (hc : c ∈ s.data)
    (hns : goIsSpace c = false) : goTrimSpace s ≠ "" := by
  intro h
  rw [goTrimSpace_blank_all h c hc] at hns
  exact absurd hns (by simp)

/-! ### Claim C8 -/

/-- Claim C8: every store operation taking a required string identifier
(Get, Put, Delete, HGet, HSet, HGetAll on the value store; Upload, AddFile,
Download, GetFile, Stat, Delete on the file store) rejects any identifier
whose whitespace-trimmed form is empty with an invalid-argument error and
leaves the store state unchanged. -/
theorem blank_identifier_rejected (k : String) (hb : goTrimSpace k = "")
    (now size : Int) (payload fld tag tag2 sec : String)
    (opts : Option PutOptions) (fopts : Option UploadOptions)
    (s : CStoreState) (fs : R1FSState) :
    getItem now k s = (Except.error CErr.keyRequired, s)
    ∧ putItem now k payload opts tag s = (Except.error CErr.keyRequired, s)
    ∧ deleteItem k s = (Except.error CErr.keyRequired, s)
    ∧ getHashItem now k fld s = (Except.error CErr.keyRequired, s)
    ∧ putHashItem now k fld payload opts tag s = (Except.error CErr.keyRequired, s)
    ∧ listHashItems now k s = (Except.error CErr.keyRequired, s)
    ∧ (∀ hk2, goTrimSpace hk2 ≠ "" →
        getHashItem now hk2 k s = (Except.error CErr.fieldRequired, s))
    ∧ (∀ hk2, goTrimSpace hk2 ≠ "" →
        putHashItem now hk2 k payload opts tag s = (Except.error CErr.fieldRequired, s))
    ∧ upload now k payload size fopts tag fs = (Except.error RErr.pathRequired, fs)
    ∧ addFile now k payload size fopts tag tag2 fs = (Except.error RErr.filenameRequired, fs)
    ∧ download k fs = Except.error RErr.pathRequired
    ∧ getFile k sec fs = Except.error RErr.cidRequired
    ∧ statFile k fs = Except.error RErr.pathRequired
    ∧ deleteFile k fs = (Except.error RErr.pathRequired, fs) := by
  refine ⟨?_, ?_, ?_, ?_, ?_, ?_, ?_, ?_, ?_, ?_, ?_, ?_, ?_, ?_⟩
  · simp [getItem, hb]
  · simp [putItem, hb]
  · simp [deleteItem, hb]
  · simp [getHashItem, hb]
  · simp [putHashItem, hb]
  · simp [listHashItems, hb]
  · intro hk2 hne
    simp [getHashItem, hb, hne]
  · intro hk2 hne
    simp [putHashItem, hb, hne]
  · simp [upload, hb]
  · simp [addFile, hb]
  · simp [download, hb]
  · simp [getFile, hb]
  · simp [statFile, hb]
  · simp [deleteFile, hb]

/-- Witness for C8 at the whitespace key " ". -/
theorem blank_identifier_rejected_witness :
    goTrimSpace " " = ""
    ∧ (getItem 0 " " emptyCStore = (Except.error CErr.keyRequired, emptyCStore)
       ∧ putItem 0 " " "v" none "t" emptyCStore = (Except.error CErr.keyRequired, emptyCStore)
       ∧ deleteItem " " emptyCStore = (Except.error CErr.keyRequired, emptyCStore)
       ∧ getHashItem 0 " " "f" emptyCStore = (Except.error CErr.keyRequired, emptyCStore)
       ∧ putHashItem 0 " " "f" "v" none "t" emptyCStore = (Except.error CErr.keyRequired, emptyCStore)
       ∧ listHashItems 0 " " emptyCStore = (Except.error CErr.keyRequired, emptyCStore)
       ∧ (∀ hk2, goTrimSpace hk2 ≠ "" →
           getHashItem 0 hk2 " " emptyCStore = (Except.error CErr.fieldRequired, emptyCStore))
       ∧ (∀ hk2, goTrimSpace hk2 ≠ "" →
           putHashItem 0 hk2 " " "v" none "t" emptyCStore = (Except.error CErr.fieldRequired, emptyCStore))
       ∧ upload 0 " " "v" 1 none "t" emptyR1FS = (Except.error RErr.pathRequired, emptyR1FS)
       ∧ addFile 0 " " "v" 1 none "t" "t2" emptyR1FS = (Except.error RErr.filenameRequired, emptyR1FS)
       ∧ download " " emptyR1FS = Except.error RErr.pathRequired
       ∧ getFile " " "" emptyR1FS = Except.error RErr.cidRequired
       ∧ statFile " " emptyR1FS = Except.error RErr.pathRequired
       ∧ deleteFile " " emptyR1FS = (Except.error RErr.pathRequired, emptyR1FS)) :=
  ⟨by decide,
   blank_identifier_rejected " " (by decide) 0 1 "v" "f" "t" "t2" "" none none
     emptyCStore emptyR1FS⟩

/-! ### Claim C5 -/

/-- Claim C5: a conditional put that fails its precondition leaves the live
entry at the key untouched; a subsequent get still returns the old payload
and etag. -/
theorem failed_put_preserves_entry (now : Int) (k payload2 tag : String)
    (opts : Option PutOptions) (s : CStoreState) (ent : Entry)
    (hlive : alGet k s.items = some ent) (hnexp : ent.expired now = false)
    (hfail : (putItem now k payload2 opts tag s).1 = Except.error CErr.preconditionFailed) :
    (putItem now k payload2 opts tag s).2 = s
    ∧ (getItem now k s).1 = Except.ok (some ⟨k, ent.data, ent.etag, ent.expiresAt⟩) := by
  have hk : ¬ (goTrimSpace k = "") := by
    intro h
    simp [putItem, h] at hfail
  constructor
  · simp only [putItem, if_neg hk, hlive, hnexp] at hfail ⊢
    simp only [Bool.false_eq_true, if_false] at hfail ⊢
    split at hfail
    · next hcond =>
      simp only [if_pos hcond]
    · simp at hfail
  · simp [getItem, hk, hlive, hnexp]

/-- Witness for C5: ifAbsent put on an existing live entry fails and the
entry survives. -/
theorem failed_put_preserves_entry_witness :
    (alGet "jobs:1" (⟨[("jobs:1", ⟨"1", "e1", none⟩)], []⟩ : CStoreState).items =
        some ⟨"1", "e1", none⟩
     ∧ Entry.expired ⟨"1", "e1", none⟩ 0 = false
     ∧ (putItem 0 "jobs:1" "2" (some ⟨none, true, ""⟩) "e2"
          ⟨[("jobs:1", ⟨"1", "e1", none⟩)], []⟩).1 = Except.error CErr.preconditionFailed)
    ∧ ((putItem 0 "jobs:1" "2" (some ⟨none, true, ""⟩) "e2"
          ⟨[("jobs:1", ⟨"1", "e1", none⟩)], []⟩).2 =
        ⟨[("jobs:1", ⟨"1", "e1", none⟩)], []⟩
       ∧ (getItem 0 "jobs:1" ⟨[("jobs:1", ⟨"1", "e1", none⟩)], []⟩).1 =
          Except.ok (some ⟨"jobs:1", "1", "e1", none⟩)) :=
  ⟨⟨by decide, by decide, by decide⟩,
   failed_put_preserves_entry 0 "jobs:1" "2" "e2" (some ⟨none, true, ""⟩)
     ⟨[("jobs:1", ⟨"1", "e1", none⟩)], []⟩ ⟨"1", "e1", none⟩
     (by decide) (by decide) (by decide)⟩

/-! ### Claim C1 -/

/-- A put with no conditional-write options always succeeds on a valid key,
and stores exactly the new entry. -/
theorem putItem_noPrecond_shape (now : Int) (k payload tag : String) (ttl : Option Int)
    (s : CStoreState) (hk : ¬ (goTrimSpace k = "")) :
    (putItem now k payload (some ⟨ttl, false, ""⟩) tag s).1 =
      Except.ok ⟨k, payload, tag, ttlExpiry now (some ⟨ttl, false, ""⟩)⟩
    ∧ ∃ base, (putItem now k payload (some ⟨ttl, false, ""⟩) tag s).2 =
        ⟨alPut k ⟨payload, tag, ttlExpiry now (some ⟨ttl, false, ""⟩)⟩ base, s.hashes⟩ := by
  cases h0 : alGet k s.items with
  | none =>
    refine ⟨?_, s.items, ?_⟩ <;> simp [putItem, hk, h0]
  | some ent =>
    cases hExp : ent.expired now with
    | false =>
      refine ⟨?_, s.items, ?_⟩ <;> simp [putItem, hk, h0, hExp]
    | true =>
      refine ⟨?_, alErase k s.items, ?_⟩ <;> simp [putItem, hk, h0, hExp]

/-- Claim C1 (amended): an entry written at time `w` with TTL `t > 0` is
still returned by get at any time `now ≤ w + t` (including the boundary
instant `w + t` itself), and is reported absent — and lazily deleted — at
any time `now > w + t`. -/
theorem ttl_expiry_amended (w t now : Int) (k payload tag : String) (s : CStoreState)
    (ht : 0 < t) (hk : goTrimSpace k ≠ "") :
    ((getItem now k (putItem w k payload (some ⟨some t, false, ""⟩) tag s).2).1 =
      if now ≤ w + t then Except.ok (some ⟨k, payload, tag, some (w + t)⟩)
      else Except.ok none)
    ∧ (w + t < now →
        (getItem now k (putItem w k payload (some ⟨some t, false, ""⟩) tag s).2).2.items =
          alErase k (putItem w k payload (some ⟨some t, false, ""⟩) tag s).2.items) := by
  obtain ⟨-, base, hbase⟩ := putItem_noPrecond_shape w k payload tag (some t) s hk
  have hexp : ttlExpiry w (some ⟨some t, false, ""⟩) = some (w + t) := by
    simp [ttlExpiry, ht]
  rw [hexp] at hbase
  have hget : alGet k (putItem w k payload (some ⟨some t, false, ""⟩) tag s).2.items =
      some ⟨payload, tag, some (w + t)⟩ := by
    rw [hbase]
    exact alGet_alPut_self k _ base
  constructor
  · by_cases hle : now ≤ w + t
    · have : Entry.expired ⟨payload, tag, some (w + t)⟩ now = false := by
        simp [Entry.expired, Int.not_lt.mpr hle]
      simp [getItem, hk, hget, this, hle]
    · have hlt : w + t < now := Int.not_le.mp hle
      have : Entry.expired ⟨payload, tag, some (w + t)⟩ now = true := by
        simp [Entry.expired, hlt]
      simp [getItem, hk, hget, this, hle]
  · intro hlt
    have : Entry.expired ⟨payload, tag, some (w + t)⟩ now = true := by
      simp [Entry.expired, hlt]
    simp [getItem, hk, hget, this]

/-- Witness for C1 (amended) at both sides of the boundary. -/
theorem ttl_expiry_amended_witness :
    ((0 : Int) < 5 ∧ goTrimSpace "k" ≠ "")
    ∧ (((getItem 5 "k" (putItem 0 "k" "v" (some ⟨some 5, false, ""⟩) "t" emptyCStore).2).1 =
        if (5 : Int) ≤ 0 + 5 then Except.ok (some ⟨"k", "v", "t", some 5⟩)
        else Except.ok none)
       ∧ ((0 : Int) + 5 < 5 →
          (getItem 5 "k" (putItem 0 "k" "v" (some ⟨some 5, false, ""⟩) "t" emptyCStore).2).2.items =
            alErase "k" (putItem 0 "k" "v" (some ⟨some 5, false, ""⟩) "t" emptyCStore).2.items))
    ∧ (((getItem 9 "k" (putItem 0 "k" "v" (some ⟨some 5, false, ""⟩) "t" emptyCStore).2).1 =
        if (9 : Int) ≤ 0 + 5 then Except.ok (some ⟨"k", "v", "t", some 5⟩)
        else Except.ok none)
       ∧ ((0 : Int) + 5 < 9 →
          (getItem 9 "k" (putItem 0 "k" "v" (some ⟨some 5, false, ""⟩) "t" emptyCStore).2).2.items =
            alErase "k" (putItem 0 "k" "v" (some ⟨some 5, false, ""⟩) "t" emptyCStore).2.items)) :=
  ⟨⟨by decide, by decide⟩,
   ttl_expiry_amended 0 5 5 "k" "v" "t" emptyCStore (by decide) (by decide),
   ttl_expiry_amended 0 5 9 "k" "v" "t" emptyCStore (by decide) (by decide)⟩

/-- Counterexample to C1 as stated: at exactly write-time + TTL the clock
reads a time greater than or equal to `w + t`, yet get still returns the
entry rather than reporting it absent. -/
theorem ttl_expiry_boundary_cex :
    ((0 : Int) + 5 ≤ 5)
    ∧ (getItem 5 "k" (putItem 0 "k" "v" (some ⟨some 5, false, ""⟩) "t" emptyCStore).2).1 =
        Except.ok (some ⟨"k", "v", "t", some 5⟩)
    ∧ Except.ok (some (⟨"k", "v", "t", some 5⟩ : Item)) ≠
        (Except.ok none : Except CErr (Option Item)) := by
  refine ⟨by decide, by decide, by decide⟩

/-! ### Claim C9 -/

/-- Claim C9 (amended): for keys whose trimmed form is non-empty, Delete
returns NotFound exactly when the key is physically absent from the map,
ignoring TTL expiry; an entry whose TTL has lapsed is reported absent by
get while Delete at the same instant succeeds and removes it. -/
theorem delete_ignores_ttl_amended (k payload tag : String) (w t now : Int) (s : CStoreState)
    (hk : goTrimSpace k ≠ "") (ht : 0 < t) (hlate : w + t < now) :
    (∀ s2 : CStoreState,
      ((deleteItem k s2).1 = Except.error CErr.notFound ↔ alGet k s2.items = none))
    ∧ (getItem now k (putItem w k payload (some ⟨some t, false, ""⟩) tag s).2).1 =
        Except.ok none
    ∧ deleteItem k (putItem w k payload (some ⟨some t, false, ""⟩) tag s).2 =
        (Except.ok (),
         { (putItem w k payload (some ⟨some t, false, ""⟩) tag s).2 with
            items := alErase k (putItem w k payload (some ⟨some t, false, ""⟩) tag s).2.items }) := by
  obtain ⟨-, base, hbase⟩ := putItem_noPrecond_shape w k payload tag (some t) s hk
  have hexp : ttlExpiry w (some ⟨some t, false, ""⟩) = some (w + t) := by
    simp [ttlExpiry, ht]
  rw [hexp] at hbase
  have hget : alGet k (putItem w k payload (some ⟨some t, false, ""⟩) tag s).2.items =
      some ⟨payload, tag, some (w + t)⟩ := by
    rw [hbase]
    exact alGet_alPut_self k _ base
  refine ⟨?_, ?_, ?_⟩
  · intro s2
    cases h2 : alGet k s2.items with
    | none => simp [deleteItem, hk, h2]
    | some e2 => simp [deleteItem, hk, h2]
  · have : Entry.expired ⟨payload, tag, some (w + t)⟩ now = true := by
      simp [Entry.expired, hlate]
    simp [getItem, hk, hget, this]
  · simp [deleteItem, hk, hget]

/-- Witness for C9 (amended). -/
theorem delete_ignores_ttl_amended_witness :
    (goTrimSpace "k" ≠ "" ∧ (0 : Int) < 5 ∧ (0 : Int) + 5 < 9)
    ∧ ((∀ s2 : CStoreState,
        ((deleteItem "k" s2).1 = Except.error CErr.notFound ↔ alGet "k" s2.items = none))
       ∧ (getItem 9 "k" (putItem 0 "k" "v" (some ⟨some 5, false, ""⟩) "t" emptyCStore).2).1 =
          Except.ok none
       ∧ deleteItem "k" (putItem 0 "k" "v" (some ⟨some 5, false, ""⟩) "t" emptyCStore).2 =
          (Except.ok (),
           { (putItem 0 "k" "v" (some ⟨some 5, false, ""⟩) "t" emptyCStore).2 with
              items := alErase "k"
                (putItem 0 "k" "v" (some ⟨some 5, false, ""⟩) "t" emptyCStore).2.items })) :=
  ⟨⟨by decide, by decide, by decide⟩,
   delete_ignores_ttl_amended "k" "v" "t" 0 5 9 emptyCStore (by decide) (by decide) (by decide)⟩

/-- Counterexample to C9 as stated: the whitespace key " " is physically
absent, yet Delete rejects it with the key-required error, not NotFound. -/
theorem delete_blank_key_cex :
    alGet " " emptyCStore.items = none
    ∧ deleteItem " " emptyCStore = (Except.error CErr.keyRequired, emptyCStore)
    ∧ CErr.keyRequired ≠ CErr.notFound := by
  refine ⟨by decide, by decide, by decide⟩

/-! ### Claim C2 -/

/-- Whether an `Except` result is a success. -/
def exceptOk {ε α : Type} : Except ε α → Bool
  | .ok _ => true
  | .error _ => false

/-- Claim C2 (amended): for every key whose whitespace-trimmed form is
non-empty, a put with ifAbsent succeeds exactly when no live entry exists
at the key; a put with a non-empty ifETagMatch token succeeds exactly when
a live entry exists whose etag equals the token (failing in particular
when no entry exists); a failing conditional put returns
PreconditionFailed. -/
theorem conditional_put_amended (now : Int) (k payload tag newTag : String)
    (ttl : Option Int) (s : CStoreState) (hk : goTrimSpace k ≠ "") :
    (exceptOk (putItem now k payload (some ⟨ttl, true, ""⟩) newTag s).1 = true ↔
      liveAt now k s = none)
    ∧ (exceptOk (putItem now k payload (some ⟨ttl, true, ""⟩) newTag s).1 = false →
        (putItem now k payload (some ⟨ttl, true, ""⟩) newTag s).1 =
          Except.error CErr.preconditionFailed)
    ∧ (tag ≠ "" →
        (exceptOk (putItem now k payload (some ⟨ttl, false, tag⟩) newTag s).1 = true ↔
          ∃ e, liveAt now k s = some e ∧ e.etag = tag))
    ∧ (tag ≠ "" →
        exceptOk (putItem now k payload (some ⟨ttl, false, tag⟩) newTag s).1 = false →
        (putItem now k payload (some ⟨ttl, false, tag⟩) newTag s).1 =
          Except.error CErr.preconditionFailed) := by
  cases h0 : alGet k s.items with
  | none =>
    refine ⟨?_, ?_, ?_, ?_⟩
    · simp [putItem, hk, h0, liveAt, exceptOk]
    · simp [putItem, hk, h0, exceptOk]
    · intro htag
      simp [putItem, hk, h0, liveAt, exceptOk, htag]
    · intro htag
      simp [putItem, hk, h0, exceptOk, htag]
  | some ent =>
    cases hExp : ent.expired now with
    | true =>
      refine ⟨?_, ?_, ?_, ?_⟩
      · simp [putItem, hk, h0, hExp, liveAt, exceptOk]
      · simp [putItem, hk, h0, hExp, exceptOk]
      · intro htag
        simp [putItem, hk, h0, hExp, liveAt, exceptOk, htag]
      · intro htag
        simp [putItem, hk, h0, hExp, exceptOk, htag]
    | false =>
      refine ⟨?_, ?_, ?_, ?_⟩
      · simp [putItem, hk, h0, hExp, liveAt, exceptOk]
      · simp [putItem, hk, h0, hExp, exceptOk]
      · intro htag
        by_cases he : ent.etag = tag
        · simp [putItem, hk, h0, hExp, liveAt, exceptOk, htag, he]
        · simp [putItem, hk, h0, hExp, liveAt, exceptOk, htag, he]
      · intro htag
        by_cases he : ent.etag = tag
        · simp [putItem, hk, h0, hExp, exceptOk, htag, he]
        · simp [putItem, hk, h0, hExp, exceptOk, htag, he]

/-- Witness for C2 (amended): on a store holding one live entry with etag
"e1", ifAbsent fails while ifETagMatch "e1" succeeds. -/
theorem conditional_put_amended_witness :
    goTrimSpace "k" ≠ ""
    ∧ ((exceptOk (putItem 0 "k" "v" (some ⟨none, true, ""⟩) "t2"
          ⟨[("k", ⟨"v0", "e1", none⟩)], []⟩).1 = true ↔
        liveAt 0 "k" ⟨[("k", ⟨"v0", "e1", none⟩)], []⟩ = none)
       ∧ (exceptOk (putItem 0 "k" "v" (some ⟨none, true, ""⟩) "t2"
            ⟨[("k", ⟨"v0", "e1", none⟩)], []⟩).1 = false →
          (putItem 0 "k" "v" (some ⟨none, true, ""⟩) "t2"
            ⟨[("k", ⟨"v0", "e1", none⟩)], []⟩).1 =
            Except.error CErr.preconditionFailed)
       ∧ ("e1" ≠ "" →
          (exceptOk (putItem 0 "k" "v" (some ⟨none, false, "e1"⟩) "t2"
              ⟨[("k", ⟨"v0", "e1", none⟩)], []⟩).1 = true ↔
            ∃ e, liveAt 0 "k" ⟨[("k", ⟨"v0", "e1", none⟩)], []⟩ = some e ∧ e.etag = "e1"))
       ∧ ("e1" ≠ "" →
          exceptOk (putItem 0 "k" "v" (some ⟨none, false, "e1"⟩) "t2"
            ⟨[("k", ⟨"v0", "e1", none⟩)], []⟩).1 = false →
          (putItem 0 "k" "v" (some ⟨none, false, "e1"⟩) "t2"
            ⟨[("k", ⟨"v0", "e1", none⟩)], []⟩).1 =
            Except.error CErr.preconditionFailed)) :=
  ⟨by decide,
   conditional_put_amended 0 "k" "v" "e1" "t2" none
     ⟨[("k", ⟨"v0", "e1", none⟩)], []⟩ (by decide)⟩

/-- Counterexample to C2 as stated: the whitespace key " " is a non-empty
key with no live entry, yet a put with ifAbsent does not succeed — it is
rejected with the key-required error. -/
theorem conditional_put_blank_key_cex :
    (" " : String) ≠ ""
    ∧ liveAt 0 " " emptyCStore = none
    ∧ (putItem 0 " " "v" (some ⟨none, true, ""⟩) "t" emptyCStore).1 =
        Except.error CErr.keyRequired := by
  refine ⟨by decide, by decide, by decide⟩

/-! ### Claim C4 -/

theorem noEmpty_alPut {hashes : List (String × List (String × Entry))}
    {hk : String} {b : List (String × Entry)}
    (h : ∀ p ∈ hashes, p.2 ≠ ([] : List (String × Entry))) (hb : b ≠ []) :
    ∀ p ∈ alPut hk b hashes, p.2 ≠ ([] : List (String × Entry)) := by
  intro p hp
  rcases mem_alPut hp with hp2 | hp2
  · rw [hp2]
    exact hb
  · exact h p hp2

theorem noEmpty_alErase {hashes : List (String × List (String × Entry))} {hk : String}
    (h : ∀ p ∈ hashes, p.2 ≠ ([] : List (String × Entry))) :
    ∀ p ∈ alErase hk hashes, p.2 ≠ ([] : List (String × Entry)) :=
  fun p hp => h p (mem_alErase hp)

/-- `getHashItem` preserves the no-empty-bucket invariant. -/
theorem getHashItem_no_empty (now : Int) (hashKey fld : String) (s : CStoreState)
    (hinv : noEmptyBuckets s) : noEmptyBuckets (getHashItem now hashKey fld s).2 := by
  by_cases hb1 : goTrimSpace hashKey = ""
  · simpa [getHashItem, hb1] using hinv
  · by_cases hb2 : goTrimSpace fld = ""
    · simpa [getHashItem, hb1, hb2] using hinv
    · cases hbk : alGet hashKey s.hashes with
      | none => simpa [getHashItem, hb1, hb2, hbk] using hinv
      | some bucket =>
        cases hf : alGet fld bucket with
        | none => simpa [getHashItem, hb1, hb2, hbk, hf] using hinv
        | some ent =>
          cases hExp : ent.expired now with
          | false => simpa [getHashItem, hb1, hb2, hbk, hf, hExp] using hinv
          | true =>
            by_cases hbe : alErase fld bucket = []
            · have hres : (getHashItem now hashKey fld s).2.hashes =
                  alErase hashKey s.hashes := by
                simp [getHashItem, hb1, hb2, hbk, hf, hExp, hbe]
              intro p hp
              rw [hres] at hp
              exact noEmpty_alErase hinv p hp
            · have hres : (getHashItem now hashKey fld s).2.hashes =
                  alPut hashKey (alErase fld bucket) s.hashes := by
                simp [getHashItem, hb1, hb2, hbk, hf, hExp,
                  List.isEmpty_iff.not.mpr hbe]
              intro p hp
              rw [hres] at hp
              exact noEmpty_alPut hinv hbe p hp

/-- `listHashItems` preserves the no-empty-bucket invariant. -/
theorem listHashItems_no_empty (now : Int) (hashKey : String) (s : CStoreState)
    (hinv : noEmptyBuckets s) : noEmptyBuckets (listHashItems now hashKey s).2 := by
  by_cases hb1 : goTrimSpace hashKey = ""
  · simpa [listHashItems, hb1] using hinv
  · cases hbk : alGet hashKey s.hashes with
    | none => simpa [listHashItems, hb1, hbk] using hinv
    | some bucket =>
      by_cases hbe : bucket.filter (fun fv => !(fv.2.expired now)) = []
      · have hres : (listHashItems now hashKey s).2.hashes = alErase hashKey s.hashes := by
          simp [listHashItems, hb1, hbk, hbe]
        intro p hp
        rw [hres] at hp
        exact noEmpty_alErase hinv p hp
      · have hres : (listHashItems now hashKey s).2.hashes =
            alPut hashKey (bucket.filter (fun fv => !(fv.2.expired now))) s.hashes := by
          by_cases hfe : ((bucket.filter (fun fv => !(fv.2.expired now))).map Prod.fst) = []
          · exact absurd (List.map_eq_nil_iff.mp hfe) hbe
          · simp [listHashItems, hb1, hbk, List.isEmpty_iff.not.mpr hbe,
              List.isEmpty_iff.not.mpr hfe]
        intro p hp
        rw [hres] at hp
        exact noEmpty_alPut hinv hbe p hp

/-- Claim C4 (amended): hget and hgetAll never leave an empty hash bucket
behind, and neither does an hset that does not fail its conditional-write
precondition; an hset that fails with PreconditionFailed, however, may
leave an empty bucket at the target hash-key (see the counterexample). -/
theorem hash_no_empty_bucket_amended (now : Int) (hashKey fld payload tag : String)
    (opts : Option PutOptions) (s : CStoreState) (hinv : noEmptyBuckets s) :
    noEmptyBuckets (getHashItem now hashKey fld s).2
    ∧ noEmptyBuckets (listHashItems now hashKey s).2
    ∧ (∀ out s2, putHashItem now hashKey fld payload opts tag s = (Except.ok out, s2) →
        noEmptyBuckets s2)
    ∧ (∀ e s2, putHashItem now hashKey fld payload opts tag s = (Except.error e, s2) →
        e ≠ CErr.preconditionFailed → noEmptyBuckets s2) := by
  refine ⟨getHashItem_no_empty now hashKey fld s hinv,
          listHashItems_no_empty now hashKey s hinv, ?_, ?_⟩
  · intro out s2 hput
    by_cases hb1 : goTrimSpace hashKey = ""
    · rw [show putHashItem now hashKey fld payload opts tag s =
          (Except.error CErr.keyRequired, s) from by simp [putHashItem, hb1]] at hput
      simp at hput
    · by_cases hb2 : goTrimSpace fld = ""
      · rw [show putHashItem now hashKey fld payload opts tag s =
            (Except.error CErr.fieldRequired, s) from by
              simp [putHashItem, hb1, hb2]] at hput
        simp at hput
      · simp only [putHashItem, hb1, hb2, if_false, ite_false] at hput
        split at hput
        · simp at hput
        · simp only [Prod.mk.injEq] at hput
          rcases hput with ⟨-, rfl⟩
          intro p hp
          exact noEmpty_alPut hinv (alPut_ne_nil fld _ _) p hp
  · intro e s2 hput hne
    by_cases hb1 : goTrimSpace hashKey = ""
    · rw [show putHashItem now hashKey fld payload opts tag s =
          (Except.error CErr.keyRequired, s) from by simp [putHashItem, hb1]] at hput
      simp only [Prod.mk.injEq] at hput
      rcases hput with ⟨-, rfl⟩
      exact hinv
    · by_cases hb2 : goTrimSpace fld = ""
      · rw [show putHashItem now hashKey fld payload opts tag s =
            (Except.error CErr.fieldRequired, s) from by
              simp [putHashItem, hb1, hb2]] at hput
        simp only [Prod.mk.injEq] at hput
        rcases hput with ⟨-, rfl⟩
        exact hinv
      · simp only [putHashItem] at hput
        rw [if_neg hb1, if_neg hb2] at hput
        split at hput
        · simp only [Prod.mk.injEq, Except.error.injEq] at hput
          rcases hput with ⟨he, rfl⟩
          exact absurd he.symm hne
        · simp at hput

/-- Witness for C4 (amended) on a store holding one live hash field. -/
theorem hash_no_empty_bucket_amended_witness :
    noEmptyBuckets ⟨[], [("h", [("f", ⟨"v", "e1", none⟩)])]⟩
    ∧ (noEmptyBuckets (getHashItem 0 "h" "f" ⟨[], [("h", [("f", ⟨"v", "e1", none⟩)])]⟩).2
       ∧ noEmptyBuckets (listHashItems 0 "h" ⟨[], [("h", [("f", ⟨"v", "e1", none⟩)])]⟩).2
       ∧ (∀ out s2, putHashItem 0 "h" "f" "v2" none "e2"
            ⟨[], [("h", [("f", ⟨"v", "e1", none⟩)])]⟩ = (Except.ok out, s2) →
            noEmptyBuckets s2)
       ∧ (∀ e s2, putHashItem 0 "h" "f" "v2" none "e2"
            ⟨[], [("h", [("f", ⟨"v", "e1", none⟩)])]⟩ = (Except.error e, s2) →
            e ≠ CErr.preconditionFailed → noEmptyBuckets s2)) :=
  ⟨by decide,
   hash_no_empty_bucket_amended 0 "h" "f" "v2" "e2" none
     ⟨[], [("h", [("f", ⟨"v", "e1", none⟩)])]⟩ (by decide)⟩

/-- Counterexample to C4 as stated: an hset with an ifETagMatch token
against a hash-key that has no bucket fails with PreconditionFailed but
leaves a freshly created empty bucket stored at that hash-key. -/
theorem hash_empty_bucket_cex :
    putHashItem 0 "h" "f" "v" (some ⟨none, false, "x"⟩) "t" emptyCStore =
      (Except.error CErr.preconditionFailed, ⟨[], [("h", [])]⟩)
    ∧ ¬ noEmptyBuckets ⟨[], [("h", [])]⟩ := by
  refine ⟨by decide, ?_⟩
  intro hinv
  exact hinv ("h", []) (by decide) rfl

/-! ### Claim C6 -/

/-- Claim C6 (amended): for every cid whose whitespace-trimmed form is
non-empty and that is not a key of the YAML table, GetYAML succeeds with
the literal JSON string "error"; and for every document payload stored via
AddYAML under a (non-blank) generated cid, GetYAML returns the JSON object
holding exactly those bytes under the fixed field `file_data`. -/
theorem getYAML_amended (cid sec sec2 fn p etagArg cidArg : String) (now : Int)
    (s : R1FSState) (hcid : goTrimSpace cid ≠ "") (hmiss : alGet cid s.yamlDocs = none)
    (hcidArg : goTrimSpace cidArg ≠ "") :
    getYAML cid sec s = Except.ok "\"error\""
    ∧ (∀ cidR fs2, addYAML now (some p) fn sec etagArg cidArg s = (Except.ok cidR, fs2) →
        getYAML cidR sec2 fs2 = Except.ok ("\x7b\"file_data\":" ++ p ++ "\x7d")) := by
  constructor
  · simp [getYAML, hcid, hmiss]
  · intro cidR fs2 hadd
    by_cases hfn : goTrimSpace fn = ""
    · have hdoc : goTrimSpace "document.yaml" ≠ "" := by decide
      simp only [addYAML, addFile, hfn, hdoc, if_true, ite_true,
        if_false, ite_false, Prod.mk.injEq, Except.ok.injEq] at hadd
      rcases hadd with ⟨rfl, rfl⟩
      simp [getYAML, hcidArg, alGet_alPut_self]
    · simp only [addYAML, addFile, hfn, if_false, ite_false, Prod.mk.injEq,
        Except.ok.injEq] at hadd
      rcases hadd with ⟨rfl, rfl⟩
      simp [getYAML, hcidArg, alGet_alPut_self]

/-- Witness for C6 (amended). -/
theorem getYAML_amended_witness :
    (goTrimSpace "zz" ≠ "" ∧ alGet "zz" emptyR1FS.yamlDocs = none
     ∧ goTrimSpace "c1" ≠ "")
    ∧ (getYAML "zz" "" emptyR1FS = Except.ok "\"error\""
       ∧ (∀ cidR fs2,
          addYAML 0 (some "\x7b\"count\":1\x7d") "doc" "" "e1" "c1" emptyR1FS =
            (Except.ok cidR, fs2) →
          getYAML cidR "" fs2 =
            Except.ok ("\x7b\"file_data\":" ++ "\x7b\"count\":1\x7d" ++ "\x7d"))) :=
  ⟨⟨by decide, by decide, by decide⟩,
   getYAML_amended "zz" "" "" "doc" "\x7b\"count\":1\x7d" "e1" "c1" 0 emptyR1FS
     (by decide) (by decide) (by decide)⟩

/-- Counterexample to C6 as stated: the whitespace cid " " was never
returned by AddYAML, yet GetYAML rejects it with an error instead of
succeeding with the literal JSON string "error". -/
theorem getYAML_blank_cid_cex :
    alGet " " emptyR1FS.yamlDocs = none
    ∧ getYAML " " "" emptyR1FS = Except.error RErr.cidRequired
    ∧ (Except.error RErr.cidRequired : Except RErr String) ≠ Except.ok "\"error\"" := by
  refine ⟨by decide, by decide, by decide⟩

/-! ### Claim C7 -/

theorem str_eq_of_data {a : String} {l : List Char} (h : a.data = l) : a = ⟨l⟩ := by
  cases a
  cases h
  rfl

theorem takeWhile_all_append {α : Type} {p : α → Bool} {l1 l2 : List α}
    (h : ∀ a ∈ l1, p a = true) :
    (l1 ++ l2).takeWhile p = l1 ++ l2.takeWhile p := by
  induction l1 with
  | nil => simp
  | cons a t ih =>
    have ha : p a = true := h a (by simp)
    have ht : ∀ b ∈ t, p b = true := fun b hb => h b (by simp [hb])
    simp [List.takeWhile_cons, ha, ih ht]

/-- Every normalized path starts with '/'. -/
theorem normalizePath_cons (p : String) : ∃ t, (normalizePath p).data = '/' :: t := by
  by_cases h0 : p = ""
  · exact ⟨[], by simp [normalizePath, h0]⟩
  · by_cases h1 : goHasPrefix p "/" = true
    · cases hd : p.data with
      | nil =>
        exact absurd (str_eq_of_data hd) h0
      | cons c t =>
        refine ⟨t, ?_⟩
        have hc : c = '/' := by
          simp only [goHasPrefix, hd, show ("/" : String).data = ['/'] from rfl,
            List.isPrefixOf, Bool.and_eq_true, beq_iff_eq] at h1
          exact h1.1.symm
        simp [normalizePath, h0, h1, hd, hc]
    · refine ⟨p.data, ?_⟩
      simp only [normalizePath, h0, if_false, ite_false]
      rw [if_neg (by simp [h1])]
      simp [String.data_append]

/-- Dropping the leading slash of a string known to start with '/'. -/
theorem goTrimPrefix_slash {t : List Char} {s : String} (h : s.data = '/' :: t) :
    (goTrimPrefix s "/").data = t := by
  simp [goTrimPrefix, h, show ("/" : String).data = ['/'] from rfl, List.isPrefixOf]

/-- The trailing segment of a path `/t` whose remainder has no further
slash is the remainder itself. -/
theorem trailing_of_no_slash {t : List Char} {s : String} (h : s.data = '/' :: t)
    (hns : '/' ∉ t) : specTrailingSegment s = ⟨t⟩ := by
  simp only [specTrailingSegment, h, List.reverse_cons]
  rw [takeWhile_all_append (by
    intro a ha
    have : a ∈ t := List.mem_reverse.mp ha
    simp only [decide_eq_true_eq]
    intro hc
    exact hns (hc ▸ this))]
  simp [List.takeWhile_cons]

/-- Claim C7 (amended): when a stored identifier has no recorded display
name, getFileMetadata falls back to the stored normalized path with its
single leading '/' removed — which equals the trailing path segment only
when the remainder contains no further '/'. -/
theorem getFile_filename_amended (cid sec : String) (e : FileEntry) (s : R1FSState)
    (hcid : goTrimSpace cid ≠ "")
    (hfile : alGet (normalizePath cid) s.files = some e)
    (hname : (alGet cid s.fileNames).getD "" = "") :
    (getFile cid sec s).map FileLocation.filename =
      Except.ok (goTrimPrefix (normalizePath cid) "/")
    ∧ ('/' ∉ (goTrimPrefix (normalizePath cid) "/").data →
        goTrimPrefix (normalizePath cid) "/" = specTrailingSegment (normalizePath cid)) := by
  constructor
  · simp [getFile, hcid, hfile, hname, Except.map]
  · intro hns
    obtain ⟨t, ht⟩ := normalizePath_cons cid
    have ht2 : (goTrimPrefix (normalizePath cid) "/").data = t := goTrimPrefix_slash ht
    rw [ht2] at hns
    rw [str_eq_of_data ht2, trailing_of_no_slash ht hns]

/-- Witness for C7 (amended): an upload to the multi-segment path
"/docs/a.txt" has no recorded display name, and getFileMetadata reports
"docs/a.txt". -/
theorem getFile_filename_amended_witness :
    (goTrimSpace "/docs/a.txt" ≠ ""
     ∧ alGet (normalizePath "/docs/a.txt")
        (upload 0 "/docs/a.txt" "data" 4 none "t1" emptyR1FS).2.files =
        some ⟨"data", "", "t1", [], 0⟩
     ∧ (alGet "/docs/a.txt"
        (upload 0 "/docs/a.txt" "data" 4 none "t1" emptyR1FS).2.fileNames).getD "" = "")
    ∧ ((getFile "/docs/a.txt" ""
          (upload 0 "/docs/a.txt" "data" 4 none "t1" emptyR1FS).2).map FileLocation.filename =
        Except.ok (goTrimPrefix (normalizePath "/docs/a.txt") "/")
       ∧ ('/' ∉ (goTrimPrefix (normalizePath "/docs/a.txt") "/").data →
          goTrimPrefix (normalizePath "/docs/a.txt") "/" =
            specTrailingSegment (normalizePath "/docs/a.txt"))) :=
  ⟨⟨by decide, by decide, by decide⟩,
   getFile_filename_amended "/docs/a.txt" "" ⟨"data", "", "t1", [], 0⟩
     (upload 0 "/docs/a.txt" "data" 4 none "t1" emptyR1FS).2
     (by decide) (by decide) (by decide)⟩

/-- Counterexample to C7 as stated: for the stored path "/docs/a.txt" with
no recorded display name, the returned filename is "docs/a.txt" — the full
path minus the leading slash — not the trailing segment "a.txt". -/
theorem getFile_filename_cex :
    (getFile "/docs/a.txt" ""
        (upload 0 "/docs/a.txt" "data" 4 none "t1" emptyR1FS).2).map FileLocation.filename =
      Except.ok "docs/a.txt"
    ∧ specTrailingSegment "/docs/a.txt" = "a.txt"
    ∧ ("docs/a.txt" : String) ≠ "a.txt" := by
  refine ⟨by decide, by decide, by decide⟩

/-! ### Claim C10 -/

/-- Claim C10 (amended): for every path p that does not start with '/' and
whose whitespace-trimmed form is non-empty, Upload, Download, Stat and
Delete behave identically on p and on "/" ++ p; in particular an upload to
p followed by a download of "/" ++ p returns exactly the uploaded bytes. -/
theorem slash_normalization_amended (p : String) (hp : goTrimSpace p ≠ "")
    (hs : goHasPrefix p "/" = false) (now size : Int) (payload tag : String)
    (opts : Option UploadOptions) (fs : R1FSState) :
    upload now p payload size opts tag fs = upload now ("/" ++ p) payload size opts tag fs
    ∧ download p fs = download ("/" ++ p) fs
    ∧ statFile p fs = statFile ("/" ++ p) fs
    ∧ deleteFile p fs = deleteFile ("/" ++ p) fs
    ∧ (∀ st fs2, upload now p payload size opts tag fs = (Except.ok st, fs2) →
        download ("/" ++ p) fs2 = Except.ok payload) := by
  have hpne : p ≠ "" := by
    intro h
    rw [h] at hp
    exact hp rfl
  have hp2 : goTrimSpace ("/" ++ p) ≠ "" :=
    goTrimSpace_ne_empty (c := '/')
      (by rw [String.data_append]; simp) (by decide)
  have hnorm : normalizePath p = "/" ++ p := by
    simp [normalizePath, hpne, hs]
  have hnorm2 : normalizePath ("/" ++ p) = "/" ++ p := by
    have hne2 : ("/" ++ p) ≠ "" := by
      intro h
      have := congrArg String.data h
      rw [String.data_append] at this
      simp at this
    have hpref : goHasPrefix ("/" ++ p) "/" = true := by
      simp [goHasPrefix, String.data_append, List.isPrefixOf]
    simp [normalizePath, hne2, hpref]
  refine ⟨?_, ?_, ?_, ?_, ?_⟩
  · simp only [upload, hp, hp2, if_false, ite_false, hnorm, hnorm2]
  · simp only [download, hp, hp2, if_false, ite_false, hnorm, hnorm2]
  · simp only [statFile, hp, hp2, if_false, ite_false, hnorm, hnorm2]
  · simp only [deleteFile, hp, hp2, if_false, ite_false, hnorm, hnorm2]
  · intro st fs2 hupl
    simp only [upload, hp, if_false, ite_false, hnorm, Prod.mk.injEq,
      Except.ok.injEq] at hupl
    rcases hupl with ⟨-, rfl⟩
    simp [download, hp2, hnorm2, alGet_alPut_self]

/-- Witness for C10 (amended) at p = "docs/a.txt". -/
theorem slash_normalization_amended_witness :
    (goTrimSpace "docs/a.txt" ≠ "" ∧ goHasPrefix "docs/a.txt" "/" = false)
    ∧ (upload 0 "docs/a.txt" "data" 4 none "t1" emptyR1FS =
        upload 0 ("/" ++ "docs/a.txt") "data" 4 none "t1" emptyR1FS
       ∧ download "docs/a.txt" emptyR1FS = download ("/" ++ "docs/a.txt") emptyR1FS
       ∧ statFile "docs/a.txt" emptyR1FS = statFile ("/" ++ "docs/a.txt") emptyR1FS
       ∧ deleteFile "docs/a.txt" emptyR1FS = deleteFile ("/" ++ "docs/a.txt") emptyR1FS
       ∧ (∀ st fs2, upload 0 "docs/a.txt" "data" 4 none "t1" emptyR1FS =
            (Except.ok st, fs2) →
          download ("/" ++ "docs/a.txt") fs2 = Except.ok "data")) :=
  ⟨⟨by decide, by decide⟩,
   slash_normalization_amended "docs/a.txt" (by decide) (by decide) 0 4 "data" "t1"
     none emptyR1FS⟩

/-- Counterexample to C10 as stated: the whitespace path " " does not
start with '/', yet Upload rejects it while Upload of "/ " succeeds, so
the two calls are not interchangeable. -/
theorem slash_normalization_blank_cex :
    goHasPrefix " " "/" = false
    ∧ upload 0 " " "d" 1 none "t" emptyR1FS ≠
        upload 0 ("/" ++ " ") "d" 1 none "t" emptyR1FS := by
  refine ⟨by decide, by decide⟩

/-! ### Claim C3: list-indexing lemmas -/

theorem getD_mem {α : Type} : ∀ (l : List α) (i : Nat) (d : α), i < l.length → l.getD i d ∈ l
  | [], i, _, h => absurd h (by simp)
  | a :: t, 0, d, _ => by simp
  | a :: t, i + 1, d, h => by
    simp only [List.getD_cons_succ]
    exact List.mem_cons_of_mem a (getD_mem t i d (by simpa using h))

theorem getD_irrel {α : Type} : ∀ (l : List α) (i : Nat) (d1 d2 : α),
    i < l.length → l.getD i d1 = l.getD i d2
  | [], i, _, _, h => absurd h (by simp)
  | a :: t, 0, _, _, _ => by simp
  | a :: t, i + 1, d1, d2, h => by
    simp only [List.getD_cons_succ]
    exact getD_irrel t i d1 d2 (by simpa using h)

theorem getD_drop {α : Type} : ∀ (l : List α) (s i : Nat) (d : α),
    (l.drop s).getD i d = l.getD (s + i) d
  | _, 0, _, _ => by simp
  | [], s + 1, i, d => by simp
  | a :: t, s + 1, i, d => by
    rw [List.drop_succ_cons, getD_drop t s i d,
      show s + 1 + i = (s + i) + 1 from by omega, List.getD_cons_succ]

theorem take_getLastD {α : Type} : ∀ (l : List α) (n : Nat) (d : α),
    n + 1 ≤ l.length → (l.take (n + 1)).getLastD d = l.getD n d
  | [], _, _, h => by simp at h
  | a :: t, 0, d, _ => by simp
  | a :: t, n + 1, d, h => by
    simp only [List.take_succ_cons, List.getLastD_cons, List.getD_cons_succ]
    rw [take_getLastD t n a (by simpa using h)]
    exact getD_irrel t n a d (by simp at h; omega)

/-! ### Claim C3: cursor arithmetic over sorted key lists -/

theorem sLt_of_sLt_of_sLe {a b c : String} (h1 : sLt a b) (h2 : sLe b c) : sLt a c := by
  by_cases h : sLt b c
  · exact sLt_trans h1 h
  · exact (eq_of_not_sLt h (sLe_iff.mp h2)) ▸ h1

theorem strLt_self (a : String) : strLt a a = false := by
  cases h : strLt a a with
  | false => rfl
  | true => exact absurd h (sLt_irrefl a)

theorem take_findIdx_not {α : Type} (p : α → Bool) :
    ∀ l : List α, ∀ x ∈ l.take (l.findIdx p), p x = false := by
  intro l
  induction l with
  | nil => simp
  | cons a t ih =>
    intro x hx
    rw [List.findIdx_cons] at hx
    cases hpa : p a with
    | true => simp [hpa] at hx
    | false =>
      simp only [hpa, cond_false, List.take_succ_cons] at hx
      rcases List.mem_cons.mp hx with rfl | hx2
      · exact hpa
      · exact ih x hx2

theorem drop_findIdx_sorted (c : String) :
    ∀ keys : List String, keys.Sorted sLe →
      keys.drop (keys.findIdx (fun k => strLt c k)) =
        keys.filter (fun k => strLt c k) := by
  intro keys
  induction keys with
  | nil => simp
  | cons k t ih =>
    intro hs
    rw [List.findIdx_cons]
    cases hck : strLt c k with
    | true =>
      have hall : ∀ x ∈ t, strLt c x = true := fun x hx =>
        sLt_of_sLt_of_sLe hck ((List.sorted_cons.mp hs).1 x hx)
      simp [List.filter_cons, hck, List.filter_eq_self.mpr hall]
    | false =>
      simp only [cond_false, List.drop_succ_cons]
      rw [ih (List.sorted_cons.mp hs).2]
      simp [List.filter_cons, hck]

theorem filter_getD_sorted :
    ∀ l : List String, l.Pairwise sLt → ∀ i : Nat, i < l.length →
      l.filter (fun k => strLt (l.getD i "") k) = l.drop (i + 1) := by
  intro l
  induction l with
  | nil =>
    intro _ i h
    simp at h
  | cons a t ih =>
    intro hp i hi
    cases i with
    | zero =>
      have hall : ∀ x ∈ t, strLt a x = true := fun x hx =>
        (List.pairwise_cons.mp hp).1 x hx
      simp [List.getD_cons_zero, List.filter_cons, strLt_self,
        List.filter_eq_self.mpr hall]
    | succ i =>
      have hx : t.getD i "" ∈ t := getD_mem t i "" (by simpa using hi)
      have ha : sLt a (t.getD i "") := (List.pairwise_cons.mp hp).1 _ hx
      have hfa : strLt (t.getD i "") a = false := by
        cases hb : strLt (t.getD i "") a with
        | false => rfl
        | true => exact absurd hb (sLt_asymm ha)
      simp only [List.getD_cons_succ, List.filter_cons, hfa, if_false, ite_false,
        Bool.false_eq_true, List.drop_succ_cons]
      exact ih (List.pairwise_cons.mp hp).2 i (by simpa using hi)

/-! ### Claim C3: what a single page looks like -/

/-- Spec-side description of a page: the part of the remainder allowed by
the limit (0 or negative limit means unlimited). -/
def specPage (rem : List String) (limit : Int) : List String :=
  if 0 < limit then rem.take limit.toNat else rem

theorem pageOf_spec (keys : List String) (c : String) (limit : Int)
    (hsorted : keys.Sorted sLe) (hnb : ∀ k ∈ keys, k ≠ "") :
    (pageOf keys c limit).1 = specPage (keys.filter (fun k => strLt c k)) limit
    ∧ (pageOf keys c limit).2 =
        (if (specPage (keys.filter (fun k => strLt c k)) limit).length <
            (keys.filter (fun k => strLt c k)).length
         then (specPage (keys.filter (fun k => strLt c k)) limit).getLastD ""
         else "") := by
  set rem := keys.filter (fun k => strLt c k) with hremdef
  have hstart0 : cursorStart keys c ≤ keys.length := by
    by_cases hc : c = ""
    · simp [cursorStart, hc]
    · simp only [cursorStart, hc, if_false, ite_false]
      exact List.findIdx_le_length _
  have hdrop : keys.drop (cursorStart keys c) = rem := by
    by_cases hc : c = ""
    · rw [hremdef]
      simp only [cursorStart, hc, ite_true, List.drop_zero]
      exact (List.filter_eq_self.mpr (fun k hk => sLt_empty (hnb k hk))).symm
    · simp only [cursorStart, hc, ite_false]
      exact drop_findIdx_sorted c keys hsorted
  have hremlen : rem.length = keys.length - cursorStart keys c := by
    rw [← hdrop, List.length_drop]
  simp only [pageOf]
  rw [if_neg (by omega : ¬ keys.length < cursorStart keys c)]
  by_cases hA : 0 < limit ∧ cursorStart keys c + limit.toNat < keys.length
  · obtain ⟨hlim, hbound⟩ := hA
    have hn1 : 1 ≤ limit.toNat := by omega
    have hnlt : limit.toNat < rem.length := by omega
    rw [if_pos ⟨hlim, hbound⟩]
    have hpage : (keys.drop (cursorStart keys c)).take
        (cursorStart keys c + limit.toNat - cursorStart keys c) = rem.take limit.toNat := by
      rw [hdrop, show cursorStart keys c + limit.toNat - cursorStart keys c = limit.toNat
        from by omega]
    constructor
    · rw [hpage]
      simp [specPage, hlim]
    · rw [if_pos ⟨by omega, by omega⟩]
      have hlen : (specPage rem limit).length = limit.toNat := by
        simp [specPage, hlim, List.length_take]
        omega
      rw [if_pos (by rw [hlen]; omega)]
      have htake : specPage rem limit = rem.take ((limit.toNat - 1) + 1) := by
        simp [specPage, hlim, show limit.toNat - 1 + 1 = limit.toNat from by omega]
      rw [htake, take_getLastD rem (limit.toNat - 1) "" (by omega)]
      rw [← hdrop, getD_drop]
      congr 1
      omega
  · rw [if_neg hA]
    have hple : rem.length ≤ (if 0 < limit then limit.toNat else rem.length) := by
      by_cases hlim : 0 < limit
      · simp only [hlim, if_true, ite_true]
        omega
      · simp [hlim]
    have hpage : (keys.drop (cursorStart keys c)).take
        (keys.length - cursorStart keys c) = rem := by
      rw [hdrop, ← hremlen, List.take_length]
    have hspec : specPage rem limit = rem := by
      by_cases hlim : 0 < limit
      · simp only [specPage, hlim, ite_true]
        exact List.take_of_length_le (by omega)
      · simp [specPage, hlim]
    constructor
    · rw [hpage, hspec]
    · rw [if_neg (by omega : ¬ (keys.length < keys.length ∧ 0 < keys.length)),
        if_neg (by rw [hspec]; omega)]

/-! ### Claim C3: the pagination loop -/

/-- The cursor loop over a fixed sorted key list: page after page until
`nextCursor` comes back empty. -/
def chainPages (keys : List String) (limit : Int) : Nat → String → List String
  | 0, _ => []
  | fuel + 1, c =>
    let pr := pageOf keys c limit
    if pr.2 = "" then pr.1 else pr.1 ++ chainPages keys limit fuel pr.2

theorem chainPages_eq (keys : List String) (limit : Int)
    (hsle : keys.Sorted sLe) (hslt : keys.Pairwise sLt)
    (hnb : ∀ k ∈ keys, k ≠ "") :
    ∀ (fuel : Nat) (c : String), (keys.filter (fun k => strLt c k)).length < fuel →
      chainPages keys limit fuel c = keys.filter (fun k => strLt c k) := by
  intro fuel
  induction fuel with
  | zero =>
    intro c h
    exact absurd h (Nat.not_lt_zero _)
  | succ fuel ih =>
    intro c hlen
    obtain ⟨hpage, hnc⟩ := pageOf_spec keys c limit hsle hnb
    set rem := keys.filter (fun k => strLt c k) with hremdef
    have hremsub : rem.Sublist keys := List.filter_sublist keys
    have hrempair : rem.Pairwise sLt := List.Pairwise.sublist hremsub hslt
    show (if (pageOf keys c limit).2 = "" then (pageOf keys c limit).1
          else (pageOf keys c limit).1 ++ chainPages keys limit fuel (pageOf keys c limit).2) = rem
    by_cases hend : (specPage rem limit).length < rem.length
    · have hlim : 0 < limit := by
        by_contra h
        simp [specPage, h] at hend
      have hpage2 : specPage rem limit = rem.take limit.toNat := by
        simp [specPage, hlim]
      have hnlt : limit.toNat < rem.length := by
        rw [hpage2, List.length_take] at hend
        omega
      have hn1 : 1 ≤ limit.toNat := by omega
      have hlast : (pageOf keys c limit).2 = rem.getD (limit.toNat - 1) "" := by
        rw [hnc, if_pos hend, hpage2,
          show List.take limit.toNat rem = List.take ((limit.toNat - 1) + 1) rem from by
            congr 1
            omega,
          take_getLastD rem (limit.toNat - 1) "" (by omega)]
      have hmemb : rem.getD (limit.toNat - 1) "" ∈ rem :=
        getD_mem rem (limit.toNat - 1) "" (by omega)
      have hncne : (pageOf keys c limit).2 ≠ "" := by
        rw [hlast]
        exact hnb _ (List.mem_of_mem_filter hmemb)
      rw [if_neg hncne]
      have hcnext : sLt c (rem.getD (limit.toNat - 1) "") :=
        (List.mem_filter.mp hmemb).2
      have hfilter2 : keys.filter (fun k => strLt ((pageOf keys c limit).2) k) =
          rem.drop limit.toNat := by
        rw [hlast]
        have hsplit : keys.filter (fun k => strLt (rem.getD (limit.toNat - 1) "") k) =
            rem.filter (fun k => strLt (rem.getD (limit.toNat - 1) "") k) := by
          rw [hremdef, List.filter_filter]
          refine List.filter_congr ?_
          intro k hk
          cases hxk : strLt (rem.getD (limit.toNat - 1) "") k with
          | false => simp
          | true => simp [sLt_trans hcnext hxk]
        rw [hsplit, filter_getD_sorted rem hrempair (limit.toNat - 1) (by omega)]
        congr 1
        omega
      have hlen2 : (keys.filter (fun k => strLt ((pageOf keys c limit).2) k)).length < fuel := by
        rw [hfilter2, List.length_drop]
        omega
      rw [ih _ hlen2, hfilter2, hpage, hpage2]
      exact List.take_append_drop limit.toNat rem
    · have hnc2 : (pageOf keys c limit).2 = "" := by
        rw [hnc, if_neg hend]
      rw [if_pos hnc2, hpage]
      by_cases hlim : 0 < limit
      · have : rem.length ≤ limit.toNat := by
          simp only [specPage, hlim, ite_true, List.length_take] at hend
          omega
        simp [specPage, hlim, List.take_of_length_le this]
      · simp [specPage, hlim]

/-! ### Claim C3: lifting the loop to the store -/

/-- The sorted prefix-filtered live key list a `listItems` call works on. -/
def keysOf (now : Int) (pfx : String) (s : CStoreState) : List String :=
  List.insertionSort sLe
    (((s.items.filter (fun kv => !(kv.2.expired now))).map Prod.fst).filter (matchesPfx pfx))

theorem listItems_out (now : Int) (pfx c : String) (limit : Int) (s : CStoreState) :
    (listItems now pfx c limit s).1.items.map Item.key = (pageOf (keysOf now pfx s) c limit).1
    ∧ (listItems now pfx c limit s).1.nextCursor = (pageOf (keysOf now pfx s) c limit).2
    ∧ (listItems now pfx c limit s).2 =
        { s with items := s.items.filter (fun kv => !(kv.2.expired now)) } := by
  refine ⟨?_, rfl, rfl⟩
  simp only [listItems, keysOf, List.map_map]
  have : (Item.key ∘ fun k =>
      match alGet k (s.items.filter (fun kv => !(kv.2.expired now))) with
      | some ent => (⟨k, ent.data, ent.etag, ent.expiresAt⟩ : Item)
      | none => (⟨k, "", "", none⟩ : Item)) = id := by
    funext k
    simp only [Function.comp_apply, id_eq]
    cases alGet k (s.items.filter (fun kv => !(kv.2.expired now))) <;> rfl
  rw [this, List.map_id]

theorem paginate_eq_chain (now : Int) (pfx : String) (limit : Int) (s : CStoreState)
    (hlive : ∀ kv ∈ s.items, kv.2.expired now = false) :
    ∀ (fuel : Nat) (c : String),
      paginate now pfx limit fuel c s = chainPages (keysOf now pfx s) limit fuel c := by
  have hfl : s.items.filter (fun kv => !(kv.2.expired now)) = s.items :=
    List.filter_eq_self.mpr (fun kv hkv => by rw [hlive kv hkv]; rfl)
  have hstate : ∀ c2, (listItems now pfx c2 limit s).2 = s := by
    intro c2
    rw [(listItems_out now pfx c2 limit s).2.2, hfl]
  intro fuel
  induction fuel with
  | zero => intro c; rfl
  | succ fuel ih =>
    intro c
    obtain ⟨h1, h2, -⟩ := listItems_out now pfx c limit s
    simp only [paginate, chainPages]
    rw [hstate c, h1, h2]
    by_cases hnc : (pageOf (keysOf now pfx s) c limit).2 = ""
    · simp [hnc]
    · simp [hnc, ih]

/-- Claim C3: on a store whose entries do not expire during the iteration
(none is expired at the fixed clock reading) and whose keys are the keys
of a real Go map (no duplicates, none empty), driving `listItems` from the
empty cursor until `nextCursor` is empty terminates — any fuel beyond the
key count gives the same, stable result — and concatenates exactly to the
lexicographically sorted, duplicate-free list of live keys matching the
prefix; within each call the page consists of the first (at most `limit`)
keys strictly greater than the cursor, and `nextCursor` is the last key of
the page when the page stopped short of the end of the filtered set, and
the empty string otherwise. -/
theorem listItems_pagination (now limit : Int) (pfx : String) (s : CStoreState)
    (hnd : (s.items.map Prod.fst).Nodup)
    (hnb : ∀ k ∈ s.items.map Prod.fst, k ≠ "")
    (hlive : ∀ kv ∈ s.items, kv.2.expired now = false) :
    (∀ fuel, (keysOf now pfx s).length < fuel →
        paginate now pfx limit fuel "" s = keysOf now pfx s)
    ∧ (keysOf now pfx s).Nodup
    ∧ (keysOf now pfx s).Sorted sLt
    ∧ (∀ k, k ∈ keysOf now pfx s ↔
        k ∈ s.items.map Prod.fst ∧ matchesPfx pfx k = true)
    ∧ (∀ c, (listItems now pfx c limit s).1.items.map Item.key =
          specPage ((keysOf now pfx s).filter (fun k => strLt c k)) limit
        ∧ (listItems now pfx c limit s).1.nextCursor =
            (if (specPage ((keysOf now pfx s).filter (fun k => strLt c k)) limit).length <
                ((keysOf now pfx s).filter (fun k => strLt c k)).length
             then (specPage ((keysOf now pfx s).filter (fun k => strLt c k)) limit).getLastD ""
             else "")) := by
  have hfl : s.items.filter (fun kv => !(kv.2.expired now)) = s.items :=
    List.filter_eq_self.mpr (fun kv hkv => by rw [hlive kv hkv]; rfl)
  have hperm : (keysOf now pfx s).Perm ((s.items.map Prod.fst).filter (matchesPfx pfx)) := by
    rw [keysOf, hfl]
    exact List.perm_insertionSort sLe _
  have hsle : (keysOf now pfx s).Sorted sLe := List.sorted_insertionSort sLe _
  have hnodup : (keysOf now pfx s).Nodup :=
    hperm.nodup_iff.mpr (List.Nodup.filter _ hnd)
  have hpair : (keysOf now pfx s).Pairwise sLt := by
    refine (List.Pairwise.and hsle hnodup).imp ?_
    intro a b hab
    exact sLt_of_sLe_of_ne hab.1 hab.2
  have hnbk : ∀ k ∈ keysOf now pfx s, k ≠ "" := by
    intro k hk
    exact hnb k (List.mem_of_mem_filter (hperm.mem_iff.mp hk))
  refine ⟨?_, hnodup, hpair, ?_, ?_⟩
  · intro fuel hfuel
    rw [paginate_eq_chain now pfx limit s hlive fuel ""]
    have hfe : (keysOf now pfx s).filter (fun k => strLt "" k) = keysOf now pfx s :=
      List.filter_eq_self.mpr (fun k hk => sLt_empty (hnbk k hk))
    rw [chainPages_eq (keysOf now pfx s) limit hsle hpair hnbk fuel ""
        (by rw [hfe]; exact hfuel), hfe]
  · intro k
    rw [hperm.mem_iff, List.mem_filter]
  · intro c
    obtain ⟨h1, h2, -⟩ := listItems_out now pfx c limit s
    obtain ⟨hp1, hp2⟩ := pageOf_spec (keysOf now pfx s) c limit hsle hnbk
    exact ⟨h1.trans hp1, h2.trans hp2⟩

/-- Witness for C3 on a three-key store, prefix "jobs:", page size 1. -/
theorem listItems_pagination_witness :
    (((⟨[("jobs:2", ⟨"b", "e2", none⟩), ("jobs:1", ⟨"a", "e1", none⟩),
        ("logs:1", ⟨"c", "e3", none⟩)], []⟩ : CStoreState).items.map Prod.fst).Nodup
     ∧ (∀ k ∈ ((⟨[("jobs:2", ⟨"b", "e2", none⟩), ("jobs:1", ⟨"a", "e1", none⟩),
          ("logs:1", ⟨"c", "e3", none⟩)], []⟩ : CStoreState).items.map Prod.fst), k ≠ "")
     ∧ (∀ kv ∈ (⟨[("jobs:2", ⟨"b", "e2", none⟩), ("jobs:1", ⟨"a", "e1", none⟩),
          ("logs:1", ⟨"c", "e3", none⟩)], []⟩ : CStoreState).items,
         kv.2.expired 0 = false))
    ∧ ((∀ fuel, (keysOf 0 "jobs:"
          ⟨[("jobs:2", ⟨"b", "e2", none⟩), ("jobs:1", ⟨"a", "e1", none⟩),
            ("logs:1", ⟨"c", "e3", none⟩)], []⟩).length < fuel →
        paginate 0 "jobs:" 1 fuel ""
          ⟨[("jobs:2", ⟨"b", "e2", none⟩), ("jobs:1", ⟨"a", "e1", none⟩),
            ("logs:1", ⟨"c", "e3", none⟩)], []⟩ =
          keysOf 0 "jobs:"
            ⟨[("jobs:2", ⟨"b", "e2", none⟩), ("jobs:1", ⟨"a", "e1", none⟩),
              ("logs:1", ⟨"c", "e3", none⟩)], []⟩)
       ∧ (keysOf 0 "jobs:"
            ⟨[("jobs:2", ⟨"b", "e2", none⟩), ("jobs:1", ⟨"a", "e1", none⟩),
              ("logs:1", ⟨"c", "e3", none⟩)], []⟩).Nodup
       ∧ (keysOf 0 "jobs:"
            ⟨[("jobs:2", ⟨"b", "e2", none⟩), ("jobs:1", ⟨"a", "e1", none⟩),
              ("logs:1", ⟨"c", "e3", none⟩)], []⟩).Sorted sLt
       ∧ (∀ k, k ∈ keysOf 0 "jobs:"
            ⟨[("jobs:2", ⟨"b", "e2", none⟩), ("jobs:1", ⟨"a", "e1", none⟩),
              ("logs:1", ⟨"c", "e3", none⟩)], []⟩ ↔
            k ∈ ((⟨[("jobs:2", ⟨"b", "e2", none⟩), ("jobs:1", ⟨"a", "e1", none⟩),
              ("logs:1", ⟨"c", "e3", none⟩)], []⟩ : CStoreState).items.map Prod.fst)
            ∧ matchesPfx "jobs:" k = true)
       ∧ (∀ c, (listItems 0 "jobs:" c 1
            ⟨[("jobs:2", ⟨"b", "e2", none⟩), ("jobs:1", ⟨"a", "e1", none⟩),
              ("logs:1", ⟨"c", "e3", none⟩)], []⟩).1.items.map Item.key =
            specPage ((keysOf 0 "jobs:"
              ⟨[("jobs:2", ⟨"b", "e2", none⟩), ("jobs:1", ⟨"a", "e1", none⟩),
                ("logs:1", ⟨"c", "e3", none⟩)], []⟩).filter (fun k => strLt c k)) 1
          ∧ (listItems 0 "jobs:" c 1
              ⟨[("jobs:2", ⟨"b", "e2", none⟩), ("jobs:1", ⟨"a", "e1", none⟩),
                ("logs:1", ⟨"c", "e3", none⟩)], []⟩).1.nextCursor =
              (if (specPage ((keysOf 0 "jobs:"
                    ⟨[("jobs:2", ⟨"b", "e2", none⟩), ("jobs:1", ⟨"a", "e1", none⟩),
                      ("logs:1", ⟨"c", "e3", none⟩)], []⟩).filter (fun k => strLt c k)) 1).length <
                  ((keysOf 0 "jobs:"
                    ⟨[("jobs:2", ⟨"b", "e2", none⟩), ("jobs:1", ⟨"a", "e1", none⟩),
                      ("logs:1", ⟨"c", "e3", none⟩)], []⟩).filter (fun k => strLt c k)).length
               then (specPage ((keysOf 0 "jobs:"
                    ⟨[("jobs:2", ⟨"b", "e2", none⟩), ("jobs:1", ⟨"a", "e1", none⟩),
                      ("logs:1", ⟨"c", "e3", none⟩)], []⟩).filter (fun k => strLt c k)) 1).getLastD ""
               else ""))) :=
  ⟨⟨by decide, by decide, by decide⟩,
   listItems_pagination 0 1 "jobs:"
     ⟨[("jobs:2", ⟨"b", "e2", none⟩), ("jobs:1", ⟨"a", "e1", none⟩),
       ("logs:1", ⟨"c", "e3", none⟩)], []⟩
     (by decide) (by decide) (by decide)⟩

end EdgeSDK
